import Mathlib

set_option maxRecDepth 100000

/-!
# A shallow embedding of the workingdb core engine

This file models the core of the `workingdb` key-value engine:

* `src/util/crc64.rs` — the CRC-64 integrity code (`calculate_crc`);
* `src/storage/memory.rs` — the sharded in-memory table (`MemTable`);
* `src/persistence/aof.rs` — the append-only log (`AppendOnlyFile`):
  record encoding, `append_set` / `append_delete`, and startup replay;
* `src/core/state.rs` — the coordinating `GlobalState` that sequences each
  write through the table and the log and maintains statistics counters.

Machine integers are modelled as `Nat` with explicit reductions modulo
`2^w` where the Rust code wraps.  Byte strings are `List Nat` whose
elements are below 256 whenever they originate from real `u8` data.
Fallible Rust code returns `Except String`; a Rust panic (for example an
index out of bounds, or `%` by zero) is modelled as `Option.none` at the
outermost layer.  Clock readings (`Instant::now`, timestamps, elapsed
times) are passed in explicitly as `Nat` parameters.
-/

/-! ## Little-endian byte encoding

The Rust code serialises the packed `EntryHeader` struct by
reinterpreting its memory; on the host this is a little-endian,
padding-free layout, so each field occupies exactly its width in
little-endian byte order. -/

/-- Encode `v` as `w` little-endian bytes (dropping bits beyond `8*w`,
exactly as a fixed-width store does). -/
def leBytes : Nat → Nat → List Nat
  | _, 0 => []
  | v, w + 1 => v % 256 :: leBytes (v / 256) w

/-- Decode a little-endian byte list into a `Nat`. -/
def leDecode : List Nat → Nat
  | [] => 0
  | b :: rest => b + 256 * leDecode rest

/-! ## CRC-64 (`src/util/crc64.rs`) -/

/-- The CRC-64-ECMA polynomial `0xC96C5795D7870F42`. -/
def crcPoly : Nat := 0xC96C5795D7870F42

/-- One bit round of the software CRC loop:
`if crc & 1 == 1 { crc = (crc >> 1) ^ POLY } else { crc >>= 1 }`. -/
def crcBitStep (crc : Nat) : Nat :=
  if crc % 2 = 1 then (crc / 2) ^^^ crcPoly else crc / 2

/-- `calculate_crc`: fold each byte into the running value (`crc ^= byte`
followed by eight bit rounds), starting from `u64::MAX` and complementing
the result (`!crc`, i.e. XOR with `u64::MAX`). -/
def calculate_crc (data : List Nat) : Nat :=
  (data.foldl (fun crc b => crcBitStep^[8] (crc ^^^ b)) 18446744073709551615) ^^^
    18446744073709551615

/-! ## FNV-1a key hash (`MemTable::hash_key`) -/

/-- `MemTable::hash_key`, translated from the source loop:
start from the 64-bit FNV offset basis; for each byte XOR it in and
multiply by the FNV prime with 64-bit wrap-around.  The final
`hash as usize` is the identity on a 64-bit host. -/
def hash_key (key : List Nat) : Nat :=
  key.foldl (fun hash b => ((hash ^^^ b) * 1099511628211) % 18446744073709551616)
    14695981039346656037

/-- Modelled from the spec's words ("FNV-1a: 64-bit offset basis, XOR byte
then multiply by the FNV prime, repeated per byte"), written as explicit
recursion to compare against the source-derived `hash_key`. -/
def fnv1aAux : Nat → List Nat → Nat
  | h, [] => h
  | h, b :: rest => fnv1aAux (((h ^^^ b) * 1099511628211) % 18446744073709551616) rest

/-- The spec's FNV-1a hash of a whole key. -/
def fnv1a (key : List Nat) : Nat := fnv1aAux 14695981039346656037 key

/-! ## The sharded in-memory table (`src/storage/memory.rs`)

A `Shard` models one `Arc<RwLock<HashMap<Vec<u8>, Entry>>>`: the
`poisoned` flag records whether the `RwLock` is poisoned (so that every
`read()`/`write()` on it fails), and `map` models the `HashMap` as an
association list.  Rust's `HashMap` cannot hold two entries with the same
key; the insertion operation below preserves that shape. -/

/-- `Entry` — a stored value plus its optional absolute expiry instant. -/
structure Entry where
  value : List Nat
  expires_at : Option Nat
deriving DecidableEq, Repr

/-- One partition: a possibly poisoned `RwLock` around a key → `Entry` map. -/
structure Shard where
  poisoned : Bool
  map : List (List Nat × Entry)
deriving DecidableEq, Repr

/-- `MemTable` — the sharded table. -/
structure MemTable where
  partitions : List Shard
  partition_count : Nat
deriving DecidableEq, Repr

/-- `HashMap::insert`: replace any previous binding of `key`. -/
def mapInsert (m : List (List Nat × Entry)) (key : List Nat) (e : Entry) :
    List (List Nat × Entry) :=
  (key, e) :: m.filter (fun kv => !(kv.1 == key))

/-- `MemTable::with_partitions`. -/
def MemTable.with_partitions (count : Nat) : MemTable :=
  { partitions := List.replicate count { poisoned := false, map := [] },
    partition_count := count }

/-- The shard index `hash_key(key) as usize % partition_count`.
`none` models the Rust panic on `% 0` when the table was built with zero
partitions. -/
def MemTable.partitionIdx (t : MemTable) (key : List Nat) : Option Nat :=
  if t.partition_count = 0 then none
  else some (hash_key key % t.partition_count)

/-- `MemTable::get_partition_for_key`: compute the index and fetch
`self.partitions[idx]`; `none` models either panic (`% 0`, or an
out-of-bounds shard array access). -/
def MemTable.get_partition_for_key (t : MemTable) (key : List Nat) :
    Option (Nat × Shard) :=
  match t.partitionIdx key with
  | none => none
  | some idx =>
    match t.partitions.get? idx with
    | none => none
    | some s => some (idx, s)

/-- `MemTable::get`.  The outer `Option` models panic; the inner one is the
Rust return value.  Note that when the shard's lock cannot be acquired the
source's `if let Ok(guard)` falls through to the final `None`. -/
def MemTable.get (t : MemTable) (now : Nat) (key : List Nat) :
    Option (Option (List Nat)) :=
  match t.get_partition_for_key key with
  | none => none
  | some (_, shard) =>
    some (if shard.poisoned then none
      else
        match shard.map.lookup key with
        | none => none
        | some entry =>
          match entry.expires_at with
          | some expires => if expires < now then none else some entry.value
          | none => some entry.value)

/-- `MemTable::set`. -/
def MemTable.set (t : MemTable) (now : Nat) (key value : List Nat)
    (ttl : Option Nat) : Option (Except String MemTable) :=
  match t.get_partition_for_key key with
  | none => none
  | some (idx, shard) =>
    some (if shard.poisoned then .error "Failed to acquire write lock"
      else .ok { t with
        partitions := t.partitions.set idx
          { shard with
            map := mapInsert shard.map key
              { value := value, expires_at := ttl.map (fun d => now + d) } } })

/-- `MemTable::delete`: remove the key, reporting whether it was present. -/
def MemTable.delete (t : MemTable) (key : List Nat) :
    Option (Except String (Bool × MemTable)) :=
  match t.get_partition_for_key key with
  | none => none
  | some (idx, shard) =>
    some (if shard.poisoned then .error "Failed to acquire write lock"
      else .ok ((shard.map.lookup key).isSome,
        { t with
          partitions := t.partitions.set idx
            { shard with map := shard.map.filter (fun kv => !(kv.1 == key)) } }))

/-- `MemTable::recover_set` — same mechanics as `set`, reached only from
the log's replay path; the lock-failure message differs. -/
def MemTable.recover_set (t : MemTable) (now : Nat) (key value : List Nat)
    (ttl : Option Nat) : Option (Except String MemTable) :=
  match t.get_partition_for_key key with
  | none => none
  | some (idx, shard) =>
    some (if shard.poisoned then .error "Lock error"
      else .ok { t with
        partitions := t.partitions.set idx
          { shard with
            map := mapInsert shard.map key
              { value := value, expires_at := ttl.map (fun d => now + d) } } })

/-- `MemTable::recover_delete`. -/
def MemTable.recover_delete (t : MemTable) (key : List Nat) :
    Option (Except String (Bool × MemTable)) :=
  match t.get_partition_for_key key with
  | none => none
  | some (idx, shard) =>
    some (if shard.poisoned then .error "Lock error"
      else .ok ((shard.map.lookup key).isSome,
        { t with
          partitions := t.partitions.set idx
            { shard with map := shard.map.filter (fun kv => !(kv.1 == key)) } }))

/-- Whether an entry counts as expired at instant `now`
(`Instant::now() > expires`, a strict comparison). -/
def Entry.isExpired (now : Nat) (e : Entry) : Bool :=
  match e.expires_at with
  | some expires => decide (expires < now)
  | none => false

/-- One shard's slice of `MemTable::gc`: if the write lock cannot be
acquired the shard is skipped (`if let Ok(mut guard)` falls through);
otherwise collect the keys of all expired entries, then remove each
collected key, counting one removal per key. -/
def gcShard (now : Nat) (s : Shard) : Nat × Shard :=
  if s.poisoned then (0, s)
  else
    let toRemove := (s.map.filter (fun kv => Entry.isExpired now kv.2)).map Prod.fst
    (toRemove.length,
     { s with
       map := toRemove.foldl (fun m k => m.filter (fun kv => !(kv.1 == k))) s.map })

/-- `MemTable::gc`: sweep every partition, summing the removal counts. -/
def MemTable.gc (t : MemTable) (now : Nat) : Nat × MemTable :=
  (((t.partitions.map (gcShard now)).map Prod.fst).sum,
   { t with partitions := (t.partitions.map (gcShard now)).map Prod.snd })

/-! ## The append-only log (`src/persistence/aof.rs`)

`EntryHeader` is `#[repr(C, packed)]`, hence exactly
8+4+1+8+2+4+8 = 35 bytes, serialised field by field little-endian:
`[crc:8][size:4][cmd:1][timestamp:8][key_len:2][value_len:4][ttl_ms:8]`. -/

/-- One logical log record, as built by `append_set` / `append_delete`. -/
inductive LogCmd where
  | set (ts : Nat) (key value : List Nat) (ttl_ms : Nat)
  | del (ts : Nat) (key : List Nat)
deriving DecidableEq, Repr

/-- Everything after the CRC field: the remaining 27 header bytes plus the
key and (for `set`) the value.  The `size` field stores
`header + key + value` truncated to `u32` by the 4-byte store. -/
def recordBody : LogCmd → List Nat
  | .set ts key value ttl =>
    leBytes (35 + key.length + value.length) 4 ++ leBytes 1 1 ++ leBytes ts 8 ++
      leBytes key.length 2 ++ leBytes value.length 4 ++ leBytes ttl 8 ++ key ++ value
  | .del ts key =>
    leBytes (35 + key.length) 4 ++ leBytes 2 1 ++ leBytes ts 8 ++
      leBytes key.length 2 ++ leBytes 0 4 ++ leBytes 0 8 ++ key

/-- The full on-disk record: the CRC (computed over everything after the
CRC field) followed by the body. -/
def encodeRecord (c : LogCmd) : List Nat :=
  leBytes (calculate_crc (recordBody c)) 8 ++ recordBody c

/-- The number of bytes of a record (`total_size` in the source). -/
def recordSize : LogCmd → Nat
  | .set _ key value _ => 35 + key.length + value.length
  | .del _ key => 35 + key.length

/-- A whole log file: records laid out back to back from offset 0. -/
def encodeAll (cs : List LogCmd) : List Nat := (cs.map encodeRecord).flatten

/-- The in-memory `AppendOnlyFile` state: the file bytes, the write cursor
(`position`, equal to the file length), and the recovery counter. -/
structure AppendOnlyFile where
  data : List Nat
  position : Nat
  replay_count : Nat
deriving DecidableEq, Repr

/-- `AppendOnlyFile::append_set`: validate sizes, build the record, append
it, and return the pre-append offset. -/
def AppendOnlyFile.append_set (aof : AppendOnlyFile) (ts : Nat)
    (key value : List Nat) (ttl : Option Nat) :
    Except String (Nat × AppendOnlyFile) :=
  if key.length > 65535 then .error "Key too large"
  else if value.length > 4294967295 then .error "Value too large"
  else
    let ttl_ms := ttl.getD 0
    let entry := encodeRecord (.set ts key value ttl_ms)
    .ok (aof.position,
      { aof with
        data := aof.data ++ entry,
        position := aof.position + (35 + key.length + value.length) })

/-- `AppendOnlyFile::append_delete`. -/
def AppendOnlyFile.append_delete (aof : AppendOnlyFile) (ts : Nat)
    (key : List Nat) : Except String (Nat × AppendOnlyFile) :=
  if key.length > 65535 then .error "Key too large"
  else
    let entry := encodeRecord (.del ts key)
    .ok (aof.position,
      { aof with
        data := aof.data ++ entry,
        position := aof.position + (35 + key.length) })

/-! ### Replay (`AppendOnlyFile::replay_existing_entries`)

The header is read back with `ptr::read_unaligned`, i.e. the inverse of
the little-endian field layout above.  The projections below read one
field out of a 35-byte header buffer. -/

/-- The stored CRC (bytes 0–7 of the header). -/
def hdrCrc (hdr : List Nat) : Nat := leDecode (hdr.take 8)

/-- The declared total record size (bytes 8–11). -/
def hdrSize (hdr : List Nat) : Nat := leDecode ((hdr.drop 8).take 4)

/-- The command tag (byte 12). -/
def hdrCmd (hdr : List Nat) : Nat := leDecode ((hdr.drop 12).take 1)

/-- The key length (bytes 21–22). -/
def hdrKeySize (hdr : List Nat) : Nat := leDecode ((hdr.drop 21).take 2)

/-- The value length (bytes 23–26). -/
def hdrValueSize (hdr : List Nat) : Nat := leDecode ((hdr.drop 23).take 4)

/-- The replay loop.  `rem` is the unread tail of the file, `position` the
loop's offset counter, `fileLen` the file length captured at open, and
`count` the records replayed so far.  A short read (`read_exact` hitting
end of file) is an I/O error; a record whose declared size is below the
header size is `"Invalid entry size"`; a CRC mismatch stops replay
successfully with the count so far; an unknown command tag is a hard
error.  `fuel` only makes the recursion structural: every iteration
consumes at least the 35 header bytes, so `fuel := rem.length` never runs
out. -/
def replayLoop : (fuel : Nat) → (rem : List Nat) →
    (position fileLen count : Nat) → Except String Nat
  | 0, _, position, fileLen, count =>
    if position < fileLen then .error "failed to fill whole buffer" else .ok count
  | fuel + 1, rem, position, fileLen, count =>
    if position < fileLen then
      if 35 ≤ rem.length then
        let headerBuf := rem.take 35
        let rem1 := rem.drop 35
        if hdrSize headerBuf < 35 then .error "Invalid entry size"
        else if hdrKeySize headerBuf ≤ rem1.length then
          let key := rem1.take (hdrKeySize headerBuf)
          let rem2 := rem1.drop (hdrKeySize headerBuf)
          if hdrValueSize headerBuf ≤ rem2.length then
            let value := rem2.take (hdrValueSize headerBuf)
            let rem3 := rem2.drop (hdrValueSize headerBuf)
            if calculate_crc (headerBuf.drop 8 ++ key ++ value) ≠ hdrCrc headerBuf
            then .ok count
            else if hdrCmd headerBuf = 1 ∨ hdrCmd headerBuf = 2 then
              replayLoop fuel rem3 (position + hdrSize headerBuf) fileLen (count + 1)
            else .error "Unknown command type"
          else .error "failed to fill whole buffer"
        else .error "failed to fill whole buffer"
      else .error "failed to fill whole buffer"
    else .ok count

/-- `replay_existing_entries` over the file bytes: an empty file replays
nothing; otherwise run the loop from offset 0.  On success the result is
the number of replayed records — and, per the source, *only* a count:
the loop never applies the records to any table. -/
def replay_existing_entries (file : List Nat) : Except String Nat :=
  if file.length = 0 then .ok 0
  else replayLoop file.length file 0 file.length 0

/-- `AppendOnlyFile::new` on an already existing file: record the length
as the write cursor, replay, and store the replay count. -/
def AppendOnlyFile.new (file : List Nat) : Except String AppendOnlyFile :=
  (replay_existing_entries file).map
    (fun c => { data := file, position := file.length, replay_count := c })

/-- The 35 header bytes laid out field by field. -/
def mkHeader (crc size cmd ts klen vlen ttl : Nat) : List Nat :=
  leBytes crc 8 ++ leBytes size 4 ++ leBytes cmd 1 ++ leBytes ts 8 ++
    leBytes klen 2 ++ leBytes vlen 4 ++ leBytes ttl 8

/-- The command tag a record carries (`Set = 1`, `Delete = 2`). -/
def cmdTag : LogCmd → Nat
  | .set .. => 1
  | .del .. => 2

/-- The creation timestamp of a record. -/
def cmdTs : LogCmd → Nat
  | .set ts .. => ts
  | .del ts _ => ts

/-- The key bytes of a record. -/
def cmdKey : LogCmd → List Nat
  | .set _ key .. => key
  | .del _ key => key

/-- The value bytes of a record (empty for a delete). -/
def cmdValue : LogCmd → List Nat
  | .set _ _ value _ => value
  | .del .. => []

/-- The ttl field of a record (zero for a delete). -/
def cmdTtl : LogCmd → Nat
  | .set _ _ _ ttl => ttl
  | .del .. => 0

/-- A record is well formed when its key and value fit the persisted-form
limits, its total size fits the 32-bit size field, and its key and value
are genuine byte strings. -/
def ValidCmd : LogCmd → Prop
  | .set _ key value _ =>
      key.length ≤ 65535 ∧ value.length ≤ 4294967295 ∧
      35 + key.length + value.length < 4294967296 ∧
      (∀ b ∈ key, b < 256) ∧ (∀ b ∈ value, b < 256)
  | .del _ key => key.length ≤ 65535 ∧ (∀ b ∈ key, b < 256)

instance : (c : LogCmd) → Decidable (ValidCmd c)
  | .set ts key value ttl => by unfold ValidCmd; infer_instance
  | .del ts key => by unfold ValidCmd; infer_instance

/-- The shape of a file tail at which the replay loop stops successfully:
a complete record can be read (header, then `key_size` and `value_size`
bytes), its declared size passes the header-size validation, but the CRC
recomputed over (header minus the CRC field) + key + value differs from
the stored CRC. -/
def BreaksAtHead (bytes : List Nat) : Prop :=
  35 ≤ bytes.length ∧
  35 ≤ hdrSize (bytes.take 35) ∧
  hdrKeySize (bytes.take 35) ≤ bytes.length - 35 ∧
  hdrKeySize (bytes.take 35) + hdrValueSize (bytes.take 35) ≤ bytes.length - 35 ∧
  calculate_crc ((bytes.take 35).drop 8 ++
      (bytes.drop 35).take (hdrKeySize (bytes.take 35)) ++
      ((bytes.drop 35).drop (hdrKeySize (bytes.take 35))).take
        (hdrValueSize (bytes.take 35)))
    ≠ hdrCrc (bytes.take 35)

instance (bytes : List Nat) : Decidable (BreaksAtHead bytes) := by
  unfold BreaksAtHead; infer_instance

/-! ## The coordinating state (`src/core/state.rs`) -/

/-- The statistics counters of `GlobalState`. -/
structure Statistics where
  reads : Nat
  writes : Nat
  deletes : Nat
  write_latency_ns : Nat
  read_latency_ns : Nat
deriving DecidableEq, Repr

/-- `GlobalState`: the shared table, the log behind a `Mutex` (whose
poisoned state is modelled by `aofPoisoned`), and the counters. -/
structure GlobalState where
  mem_table : MemTable
  aofPoisoned : Bool
  aof : AppendOnlyFile
  stats : Statistics
deriving DecidableEq, Repr

/-- `GlobalState::set`: table first, then the log, then — only on the
branches that do not `return` early — the write counters.  `now` is the
clock used for the TTL expiry, `elapsed` the measured latency, `ts` the
timestamp written into the log record.  The outer `Option` models panic
propagation out of the table. -/
def GlobalState.set (g : GlobalState) (now elapsed ts : Nat)
    (key value : List Nat) (ttl : Option Nat) :
    Option (Except String Unit × GlobalState) :=
  match g.mem_table.set now key value ttl with
  | none => none
  | some (.error e) =>
    some (.error ("Memory write failed: " ++ e),
      { g with stats := { g.stats with
          writes := g.stats.writes + 1,
          write_latency_ns := g.stats.write_latency_ns + elapsed } })
  | some (.ok t) =>
    if g.aofPoisoned then
      some (.error "Failed to acquire AOF lock", { g with mem_table := t })
    else
      match g.aof.append_set ts key value ttl with
      | .error e =>
        some (.error ("AOF write failed: " ++ e), { g with mem_table := t })
      | .ok (_, aof) =>
        some (.ok (),
          { g with
            mem_table := t
            aof := aof
            stats := { g.stats with
              writes := g.stats.writes + 1,
              write_latency_ns := g.stats.write_latency_ns + elapsed } })

/-- `GlobalState::delete`: table first, then the log; the delete counter is
reached only when both succeed (each failure arm `return`s early). -/
def GlobalState.delete (g : GlobalState) (ts : Nat) (key : List Nat) :
    Option (Except String Bool × GlobalState) :=
  match g.mem_table.delete key with
  | none => none
  | some (.error e) =>
    some (.error ("Memory delete failed: " ++ e), g)
  | some (.ok (existed, t)) =>
    if g.aofPoisoned then
      some (.error "Failed to acquire AOF lock", { g with mem_table := t })
    else
      match g.aof.append_delete ts key with
      | .error e =>
        some (.error ("AOF delete failed: " ++ e), { g with mem_table := t })
      | .ok (_, aof) =>
        some (.ok existed,
          { g with
            mem_table := t
            aof := aof
            stats := { g.stats with deletes := g.stats.deletes + 1 } })

deriving instance DecidableEq for Except

/-! ## Theorems -/

@[simp] theorem leBytes_length (v w : Nat) : (leBytes v w).length = w := by
  induction w generalizing v with
  | zero => rfl
  | succ w ih => simp [leBytes, ih]

theorem leBytes_lt (v w : Nat) : ∀ b ∈ leBytes v w, b < 256 := by
  induction w generalizing v with
  | zero => intro b hb; simp [leBytes] at hb
  | succ w ih =>
    intro b hb
    simp only [leBytes, List.mem_cons] at hb
    rcases hb with h | h
    · omega
    · exact ih _ b h

theorem leDecode_leBytes (v w : Nat) : leDecode (leBytes v w) = v % 256 ^ w := by
  induction w generalizing v with
  | zero => simp [leBytes, leDecode, Nat.mod_one]
  | succ w ih =>
    simp only [leBytes, leDecode, ih]
    rw [pow_succ', Nat.mod_mul]

theorem crcBitStep_lt {crc : Nat} (h : crc < 2 ^ 64) :
    crcBitStep crc < 2 ^ 64 := by
  unfold crcBitStep
  split
  · exact Nat.xor_lt_two_pow (by omega) (by norm_num [crcPoly])
  · omega

theorem calculate_crc_lt (data : List Nat) (h : ∀ b ∈ data, b < 256) :
    calculate_crc data < 2 ^ 64 := by
  unfold calculate_crc
  refine Nat.xor_lt_two_pow ?_ (by norm_num)
  have aux : ∀ (l : List Nat), (∀ b ∈ l, b < 256) → ∀ (c : Nat), c < 2 ^ 64 →
      l.foldl (fun crc b => crcBitStep^[8] (crc ^^^ b)) c < 2 ^ 64 := by
    intro l
    induction l with
    | nil => intro _ c hc; simpa using hc
    | cons b rest ih =>
      intro hl c hc
      simp only [List.foldl_cons]
      refine ih (fun x hx => hl x (List.mem_cons_of_mem _ hx)) _ ?_
      have hb : b < 2 ^ 64 := by
        have := hl b (List.mem_cons_self _ _)
        omega
      have hxor : c ^^^ b < 2 ^ 64 := Nat.xor_lt_two_pow hc hb
      clear hc hb
      generalize c ^^^ b = x at hxor ⊢
      have : ∀ n y, y < 2 ^ 64 → crcBitStep^[n] y < 2 ^ 64 := by
        intro n
        induction n with
        | zero => intro y hy; simpa using hy
        | succ n ihn =>
          intro y hy
          rw [Function.iterate_succ_apply]
          exact ihn _ (crcBitStep_lt hy)
      exact this 8 x hxor
  exact aux data h _ (by norm_num)

theorem hash_key_eq_fnv1aAux (key : List Nat) :
    ∀ h : Nat,
      key.foldl (fun hash b => ((hash ^^^ b) * 1099511628211) % 18446744073709551616) h
        = fnv1aAux h key := by
  induction key with
  | nil => intro h; rfl
  | cons b rest ih => intro h; simp only [List.foldl_cons, fnv1aAux]; exact ih _

/-- C9: shard selection is exactly FNV-1a over the key bytes (offset basis
`14695981039346656037`, XOR the byte then multiply by the prime
`1099511628211` with 64-bit wrap-around) taken modulo the shard count, and
is therefore deterministic: tables with the same shard count select the
same shard for the same key bytes. -/
theorem shard_selection_is_fnv1a :
    (∀ key : List Nat, hash_key key = fnv1a key) ∧
    (∀ (t : MemTable) (key : List Nat), 1 ≤ t.partition_count →
       t.partitionIdx key = some (fnv1a key % t.partition_count)) ∧
    (∀ (t₁ t₂ : MemTable) (key : List Nat),
       t₁.partition_count = t₂.partition_count →
       t₁.partitionIdx key = t₂.partitionIdx key) := by
  have hh : ∀ key : List Nat, hash_key key = fnv1a key := fun key =>
    hash_key_eq_fnv1aAux key 14695981039346656037
  refine ⟨hh, ?_, ?_⟩
  · intro t key h1
    simp [MemTable.partitionIdx, Nat.not_eq_zero_of_lt h1, hh]
  · intro t₁ t₂ key h
    simp [MemTable.partitionIdx, h]

theorem shard_selection_is_fnv1a_witness :
    (MemTable.with_partitions 3).partitionIdx [1, 2] = some (fnv1a [1, 2] % 3) :=
  shard_selection_is_fnv1a.2.1 (MemTable.with_partitions 3) [1, 2] (by decide)

/-- C10: with at least one shard the computed shard index is strictly below
the shard count, so the shard-array access succeeds whenever the shard
array has `partition_count` elements (as `with_partitions` guarantees);
with zero shards every key operation hits the modulo-by-zero panic
(modelled by `none`) instead of returning an error. -/
theorem shard_index_in_bounds :
    (∀ (t : MemTable) (key : List Nat), 1 ≤ t.partition_count →
       ∃ i, t.partitionIdx key = some i ∧ i < t.partition_count) ∧
    (∀ (t : MemTable) (key : List Nat), 1 ≤ t.partition_count →
       t.partitions.length = t.partition_count →
       ∃ s, t.get_partition_for_key key =
         some (hash_key key % t.partition_count, s)) ∧
    (∀ n : Nat, (MemTable.with_partitions n).partitions.length = n) ∧
    (∀ (t : MemTable) (now : Nat) (key value : List Nat) (ttl : Option Nat),
       t.partition_count = 0 →
       t.get now key = none ∧ t.set now key value ttl = none ∧
       t.delete key = none ∧ t.recover_set now key value ttl = none ∧
       t.recover_delete key = none) := by
  refine ⟨?_, ?_, ?_, ?_⟩
  · intro t key h1
    refine ⟨hash_key key % t.partition_count, ?_, Nat.mod_lt _ h1⟩
    simp [MemTable.partitionIdx, Nat.not_eq_zero_of_lt h1]
  · intro t key h1 hlen
    have hidx : hash_key key % t.partition_count < t.partitions.length := by
      rw [hlen]; exact Nat.mod_lt _ h1
    refine ⟨t.partitions.get ⟨_, hidx⟩, ?_⟩
    simp [MemTable.get_partition_for_key, MemTable.partitionIdx,
      Nat.not_eq_zero_of_lt h1, List.getElem?_eq_getElem hidx]
  · intro n; simp [MemTable.with_partitions]
  · intro t now key value ttl h0
    simp [MemTable.get, MemTable.set, MemTable.delete, MemTable.recover_set,
      MemTable.recover_delete, MemTable.get_partition_for_key,
      MemTable.partitionIdx, h0]

theorem shard_index_in_bounds_witness :
    (MemTable.with_partitions 0).get 0 [5] = none ∧
    (MemTable.with_partitions 0).set 0 [5] [1] none = none ∧
    (MemTable.with_partitions 0).delete [5] = none := by
  have h := shard_index_in_bounds.2.2.2 (MemTable.with_partitions 0) 0 [5] [1] none rfl
  exact ⟨h.1, h.2.1, h.2.2.1⟩

/-- C7: `get` on an entry whose expiry instant is strictly in the past
returns absent, and on an unexpired (or expiry-free) entry returns the
stored value.  In the source `get` holds only a read lock and never
mutates the shard map, so the expired entry stays in place — accordingly
the embedded `get` returns no modified table at all; removal is deferred
to the sweep. -/
theorem get_lazy_expiry (t : MemTable) (now : Nat) (key : List Nat)
    (idx : Nat) (s : Shard) (e : Entry)
    (hshard : t.get_partition_for_key key = some (idx, s))
    (hlive : s.poisoned = false)
    (hfound : s.map.lookup key = some e) :
    (∀ expires, e.expires_at = some expires → expires < now →
       t.get now key = some none) ∧
    (∀ expires, e.expires_at = some expires → ¬ expires < now →
       t.get now key = some (some e.value)) ∧
    (e.expires_at = none → t.get now key = some (some e.value)) := by
  refine ⟨?_, ?_, ?_⟩
  · intro expires hexp hlt
    simp [MemTable.get, hshard, hlive, hfound, hexp, hlt]
  · intro expires hexp hlt
    simp [MemTable.get, hshard, hlive, hfound, hexp, hlt]
  · intro hexp
    simp [MemTable.get, hshard, hlive, hfound, hexp]

theorem get_lazy_expiry_witness :
    (⟨[⟨false, [([1], ⟨[9], some 5⟩)]⟩], 1⟩ : MemTable).get 10 [1] = some none :=
  (get_lazy_expiry ⟨[⟨false, [([1], ⟨[9], some 5⟩)]⟩], 1⟩ 10 [1] 0
      ⟨false, [([1], ⟨[9], some 5⟩)]⟩ ⟨[9], some 5⟩
      (by decide) rfl (by decide)).1 5 rfl (by decide)

/-- C4 counterexample: a shard whose lock cannot be acquired (poisoned).
`get` on a key stored unexpired in that shard returns the same "absent"
answer as for a key that was never stored, instead of reporting a
failure; and one sweep over a table whose only shard is poisoned — even
though that shard holds an already expired entry — removes nothing,
counts nothing, and leaves the table unchanged, i.e. the shard is
silently skipped. -/
theorem lock_failure_silently_ignored_cex :
    ((⟨[⟨true, [([1], ⟨[9], none⟩)]⟩], 1⟩ : MemTable).get 0 [1] = some none) ∧
    ((⟨[⟨true, [([1], ⟨[9], none⟩)]⟩], 1⟩ : MemTable).get 0 [2] = some none) ∧
    (MemTable.gc (⟨[⟨true, [([1], ⟨[9], some 0⟩)]⟩], 1⟩ : MemTable) 5 =
      (0, ⟨[⟨true, [([1], ⟨[9], some 0⟩)]⟩], 1⟩)) := by
  refine ⟨by decide, by decide, ?_⟩
  simp [MemTable.gc, gcShard]

/-- C4 amended: lock-acquisition failure is reported as an operation
failure by `set` and `delete` only; `get` on a shard whose lock cannot be
acquired silently reports the key as absent, and the sweep silently skips
any shard whose lock cannot be acquired (removing and counting nothing
there). -/
theorem lock_failure_observable_behavior (t : MemTable) (now : Nat)
    (key value : List Nat) (ttl : Option Nat) (idx : Nat) (s : Shard)
    (hshard : t.get_partition_for_key key = some (idx, s))
    (hpoisoned : s.poisoned = true) :
    t.set now key value ttl = some (.error "Failed to acquire write lock") ∧
    t.delete key = some (.error "Failed to acquire write lock") ∧
    t.get now key = some none ∧
    (∀ s' : Shard, s'.poisoned = true → gcShard now s' = (0, s')) := by
  refine ⟨?_, ?_, ?_, ?_⟩
  · simp [MemTable.set, hshard, hpoisoned]
  · simp [MemTable.delete, hshard, hpoisoned]
  · simp [MemTable.get, hshard, hpoisoned]
  · intro s' hp; simp [gcShard, hp]

theorem lock_failure_observable_behavior_witness :
    (⟨[⟨true, [([1], ⟨[9], none⟩)]⟩], 1⟩ : MemTable).set 0 [1] [7] none =
      some (.error "Failed to acquire write lock") :=
  (lock_failure_observable_behavior ⟨[⟨true, [([1], ⟨[9], none⟩)]⟩], 1⟩ 0 [1] [7]
    none 0 ⟨true, [([1], ⟨[9], none⟩)]⟩ (by decide) rfl).1

/-- The byte length of an encoded record is the `total_size` the source
computes: 35 header bytes plus key plus value. -/
theorem encodeRecord_length (c : LogCmd) : (encodeRecord c).length = recordSize c := by
  cases c <;> simp [encodeRecord, recordBody, recordSize] <;> omega

/-- C6 counterexample: on an empty log the first `append_set(b"k", b"v",
Some(5s))` returns offset 0, and the following `append_set(b"k2", b"v2",
none)` returns offset 37 — the byte length of the first record, which is
header length + 1 + 1, not header length + 1 + 2 = 38 as the claim
states. -/
theorem append_offset_concrete_cex :
    ((AppendOnlyFile.append_set ⟨[], 0, 0⟩ 0 [107] [118] (some 5000)).bind
        (fun p => (p.2.append_set 0 [107, 50] [118, 50] none).map
          (fun q => (p.1, q.1))))
      = .ok (0, 37) ∧ (37 : Nat) ≠ 35 + 1 + 2 := by decide

/-- C6 amended: each successful `append_set` returns the pre-append file
offset and advances the cursor by header length (35 = 8+4+1+8+2+4+8) +
key length + value length; concretely, on an empty log `append_set(b"k",
b"v", Some(5s))` returns offset 0 and the following `append_set(b"k2",
b"v2", none)` returns offset 35 + 1 + 1 = 37, the byte length of the
first record. -/
theorem append_set_offsets (aof : AppendOnlyFile) (ts : Nat)
    (key value : List Nat) (ttl : Option Nat)
    (hk : key.length ≤ 65535) (hv : value.length ≤ 4294967295) :
    aof.append_set ts key value ttl =
      .ok (aof.position,
        { aof with
          data := aof.data ++ encodeRecord (.set ts key value (ttl.getD 0))
          position := aof.position + (35 + key.length + value.length) }) ∧
    (encodeRecord (.set ts key value (ttl.getD 0))).length
      = 35 + key.length + value.length ∧
    ((AppendOnlyFile.append_set ⟨[], 0, 0⟩ 0 [107] [118] (some 5000)).bind
        (fun p => (p.2.append_set 0 [107, 50] [118, 50] none).map
          (fun q => (p.1, q.1))))
      = .ok (0, 35 + 1 + 1) := by
  refine ⟨?_, encodeRecord_length (.set ts key value (ttl.getD 0)), by decide⟩
  simp [AppendOnlyFile.append_set, Nat.not_lt.mpr hk, Nat.not_lt.mpr hv]

theorem append_set_offsets_witness :
    AppendOnlyFile.append_set ⟨[], 0, 0⟩ 0 [107] [118] (some 5000) =
      .ok (0, { data := encodeRecord (.set 0 [107] [118] 5000),
                position := 37, replay_count := 0 }) :=
  (append_set_offsets ⟨[], 0, 0⟩ 0 [107] [118] (some 5000)
    (by decide) (by decide)).1

/-- C2: both `set` and `delete` mutate the table first and append to the
log second.  If the table mutation fails, the error is returned and the
resulting state is unchanged apart from (for `set`) the counters — in
particular the log is untouched.  If the table mutation succeeds but the
log cannot be reached (poisoned mutex) or the append fails, an error is
returned while the resulting state keeps the mutated table `t` and the
original, untouched log.  Only when both succeed is the new log state
installed. -/
theorem state_set_writes_table_first (g : GlobalState) (now elapsed ts : Nat)
    (key value : List Nat) (ttl : Option Nat) :
    (∀ e, g.mem_table.set now key value ttl = some (.error e) →
       g.set now elapsed ts key value ttl =
         some (.error ("Memory write failed: " ++ e),
           { g with stats := { g.stats with
               writes := g.stats.writes + 1,
               write_latency_ns := g.stats.write_latency_ns + elapsed } })) ∧
    (∀ t, g.mem_table.set now key value ttl = some (.ok t) →
       g.aofPoisoned = true →
       g.set now elapsed ts key value ttl =
         some (.error "Failed to acquire AOF lock", { g with mem_table := t })) ∧
    (∀ t e, g.mem_table.set now key value ttl = some (.ok t) →
       g.aofPoisoned = false → g.aof.append_set ts key value ttl = .error e →
       g.set now elapsed ts key value ttl =
         some (.error ("AOF write failed: " ++ e), { g with mem_table := t })) ∧
    (∀ t off aof, g.mem_table.set now key value ttl = some (.ok t) →
       g.aofPoisoned = false → g.aof.append_set ts key value ttl = .ok (off, aof) →
       g.set now elapsed ts key value ttl =
         some (.ok (), { g with
           mem_table := t
           aof := aof
           stats := { g.stats with
             writes := g.stats.writes + 1,
             write_latency_ns := g.stats.write_latency_ns + elapsed } })) ∧
    (∀ e, g.mem_table.delete key = some (.error e) →
       g.delete ts key = some (.error ("Memory delete failed: " ++ e), g)) ∧
    (∀ existed t, g.mem_table.delete key = some (.ok (existed, t)) →
       g.aofPoisoned = true →
       g.delete ts key =
         some (.error "Failed to acquire AOF lock", { g with mem_table := t })) ∧
    (∀ existed t e, g.mem_table.delete key = some (.ok (existed, t)) →
       g.aofPoisoned = false → g.aof.append_delete ts key = .error e →
       g.delete ts key =
         some (.error ("AOF delete failed: " ++ e), { g with mem_table := t })) ∧
    (∀ existed t off aof, g.mem_table.delete key = some (.ok (existed, t)) →
       g.aofPoisoned = false → g.aof.append_delete ts key = .ok (off, aof) →
       g.delete ts key =
         some (.ok existed, { g with
           mem_table := t
           aof := aof
           stats := { g.stats with deletes := g.stats.deletes + 1 } })) := by
  refine ⟨?_, ?_, ?_, ?_, ?_, ?_, ?_, ?_⟩
  · intro e h; simp [GlobalState.set, h]
  · intro t h hp; simp [GlobalState.set, h, hp]
  · intro t e h hp ha; simp [GlobalState.set, h, hp, ha]
  · intro t off aof h hp ha; simp [GlobalState.set, h, hp, ha]
  · intro e h; simp [GlobalState.delete, h]
  · intro existed t h hp; simp [GlobalState.delete, h, hp]
  · intro existed t e h hp ha; simp [GlobalState.delete, h, hp, ha]
  · intro existed t off aof h hp ha; simp [GlobalState.delete, h, hp, ha]

theorem state_set_writes_table_first_witness :
    GlobalState.set ⟨⟨[⟨false, []⟩], 1⟩, true, ⟨[], 0, 0⟩, ⟨0, 0, 0, 0, 0⟩⟩
        0 7 0 [1] [2] none =
      some (.error "Failed to acquire AOF lock",
        { (⟨⟨[⟨false, []⟩], 1⟩, true, ⟨[], 0, 0⟩, ⟨0, 0, 0, 0, 0⟩⟩ : GlobalState) with
          mem_table := ⟨[⟨false, [([1], ⟨[2], none⟩)]⟩], 1⟩ }) :=
  (state_set_writes_table_first
      ⟨⟨[⟨false, []⟩], 1⟩, true, ⟨[], 0, 0⟩, ⟨0, 0, 0, 0, 0⟩⟩ 0 7 0 [1] [2]
      none).2.1 ⟨[⟨false, [([1], ⟨[2], none⟩)]⟩], 1⟩ (by decide) rfl

/-- C5 counterexample: a `delete` whose table mutation fails returns an
error without touching the delete counter — the state, counters included,
is returned unchanged — refuting that every call to `delete` increments
the delete-count regardless of outcome. -/
theorem stats_skip_on_failure_cex :
    GlobalState.delete ⟨⟨[⟨true, []⟩], 1⟩, false, ⟨[], 0, 0⟩, ⟨0, 0, 0, 0, 0⟩⟩ 0 [1] =
      some (.error "Memory delete failed: Failed to acquire write lock",
        ⟨⟨[⟨true, []⟩], 1⟩, false, ⟨[], 0, 0⟩, ⟨0, 0, 0, 0, 0⟩⟩) ∧
    (GlobalState.delete ⟨⟨[⟨true, []⟩], 1⟩, false, ⟨[], 0, 0⟩, ⟨0, 0, 0, 0, 0⟩⟩ 0 [1]).map
        (fun r => r.2.stats.deletes) = some 0 := by
  exact ⟨by decide, by decide⟩

/-- C5 amended: `set` increments the write-count and write-latency
counters exactly once on the success branch and on the table-write
failure branch, but the AOF-lock-failure and log-append-failure branches
return early and leave every counter unchanged; `delete` increments the
delete-count only when both the table delete and the log append succeed,
and leaves the counters unchanged on every failure branch. -/
theorem stats_counter_branches (g : GlobalState) (now elapsed ts : Nat)
    (key value : List Nat) (ttl : Option Nat) :
    (∀ e, g.mem_table.set now key value ttl = some (.error e) →
       (g.set now elapsed ts key value ttl).map (fun p => p.2.stats) =
         some { g.stats with
           writes := g.stats.writes + 1,
           write_latency_ns := g.stats.write_latency_ns + elapsed }) ∧
    (∀ t off aof, g.mem_table.set now key value ttl = some (.ok t) →
       g.aofPoisoned = false → g.aof.append_set ts key value ttl = .ok (off, aof) →
       (g.set now elapsed ts key value ttl).map (fun p => p.2.stats) =
         some { g.stats with
           writes := g.stats.writes + 1,
           write_latency_ns := g.stats.write_latency_ns + elapsed }) ∧
    (∀ t, g.mem_table.set now key value ttl = some (.ok t) →
       g.aofPoisoned = true ∨ (∃ e, g.aof.append_set ts key value ttl = .error e) →
       (g.set now elapsed ts key value ttl).map (fun p => p.2.stats) =
         some g.stats) ∧
    (∀ e, g.mem_table.delete key = some (.error e) →
       (g.delete ts key).map (fun p => p.2.stats) = some g.stats) ∧
    (∀ existed t, g.mem_table.delete key = some (.ok (existed, t)) →
       g.aofPoisoned = true ∨ (∃ e, g.aof.append_delete ts key = .error e) →
       (g.delete ts key).map (fun p => p.2.stats) = some g.stats) ∧
    (∀ existed t off aof, g.mem_table.delete key = some (.ok (existed, t)) →
       g.aofPoisoned = false → g.aof.append_delete ts key = .ok (off, aof) →
       (g.delete ts key).map (fun p => p.2.stats) =
         some { g.stats with deletes := g.stats.deletes + 1 }) := by
  refine ⟨?_, ?_, ?_, ?_, ?_, ?_⟩
  · intro e h; simp [GlobalState.set, h]
  · intro t off aof h hp ha; simp [GlobalState.set, h, hp, ha]
  · intro t h hcase
    rcases hcase with hp | ⟨e, ha⟩
    · simp [GlobalState.set, h, hp]
    · by_cases hp : g.aofPoisoned
      · simp [GlobalState.set, h, hp]
      · simp [GlobalState.set, h, Bool.eq_false_iff.mpr hp, ha]
  · intro e h; simp [GlobalState.delete, h]
  · intro existed t h hcase
    rcases hcase with hp | ⟨e, ha⟩
    · simp [GlobalState.delete, h, hp]
    · by_cases hp : g.aofPoisoned
      · simp [GlobalState.delete, h, hp]
      · simp [GlobalState.delete, h, Bool.eq_false_iff.mpr hp, ha]
  · intro existed t off aof h hp ha; simp [GlobalState.delete, h, hp, ha]

theorem stats_counter_branches_witness :
    (GlobalState.set ⟨⟨[⟨false, []⟩], 1⟩, true, ⟨[], 0, 0⟩, ⟨3, 4, 5, 6, 7⟩⟩
        0 9 0 [1] [2] none).map (fun p => p.2.stats) =
      some (⟨3, 4, 5, 6, 7⟩ : Statistics) :=
  (stats_counter_branches ⟨⟨[⟨false, []⟩], 1⟩, true, ⟨[], 0, 0⟩, ⟨3, 4, 5, 6, 7⟩⟩
      0 9 0 [1] [2] none).2.2.1 ⟨[⟨false, [([1], ⟨[2], none⟩)]⟩], 1⟩
    (by decide) (Or.inl rfl)

/-! ### Sweep correctness lemmas -/

theorem nodup_keys_eq {m : List (List Nat × Entry)}
    (hnd : (m.map Prod.fst).Nodup) {x y : List Nat × Entry}
    (hx : x ∈ m) (hy : y ∈ m) (hxy : x.1 = y.1) : x = y := by
  induction m with
  | nil => cases hx
  | cons a tl ih =>
    simp only [List.map_cons, List.nodup_cons] at hnd
    rcases List.mem_cons.mp hx with h1 | h1
    · rcases List.mem_cons.mp hy with h2 | h2
      · rw [h1, h2]
      · exfalso
        refine hnd.1 ?_
        have hm : y.1 ∈ tl.map Prod.fst := List.mem_map_of_mem Prod.fst h2
        rw [h1] at hxy
        rw [← hxy] at hm
        exact hm
    · rcases List.mem_cons.mp hy with h2 | h2
      · exfalso
        refine hnd.1 ?_
        have hm : x.1 ∈ tl.map Prod.fst := List.mem_map_of_mem Prod.fst h1
        rw [h2] at hxy
        rw [hxy] at hm
        exact hm
      · exact ih hnd.2 h1 h2

theorem foldl_erase_eq_filter (ks : List (List Nat)) :
    ∀ m : List (List Nat × Entry),
      ks.foldl (fun m k => m.filter (fun kv => !(kv.1 == k))) m
        = m.filter (fun kv => !(ks.contains kv.1)) := by
  induction ks with
  | nil => intro m; simp
  | cons k ks ih =>
    intro m
    simp only [List.foldl_cons, ih, List.filter_filter]
    refine List.filter_congr ?_
    intro kv _
    by_cases h : kv.1 = k <;>
      simp [List.contains_cons, h, Bool.and_comm, List.elem_eq_mem]

theorem gcShard_spec (now : Nat) (s : Shard) (hlive : s.poisoned = false)
    (hnd : (s.map.map Prod.fst).Nodup) :
    gcShard now s =
      ((s.map.filter (fun kv => Entry.isExpired now kv.2)).length,
       { s with map := s.map.filter (fun kv => !(Entry.isExpired now kv.2)) }) := by
  unfold gcShard
  rw [if_neg (by simp [hlive])]
  refine Prod.ext (by simp) ?_
  simp only [foldl_erase_eq_filter]
  refine congrArg _ (List.filter_congr ?_)
  intro kv hkv
  by_cases hexp : Entry.isExpired now kv.2
  · have hmem : kv.1 ∈ (s.map.filter (fun kv => Entry.isExpired now kv.2)).map Prod.fst :=
      List.mem_map_of_mem Prod.fst (List.mem_filter.mpr ⟨hkv, hexp⟩)
    simp [hexp, List.elem_eq_mem, hmem]
  · have hb : Entry.isExpired now kv.2 = false := Bool.eq_false_iff.mpr hexp
    have hmem : kv.1 ∉ (s.map.filter (fun kv => Entry.isExpired now kv.2)).map Prod.fst := by
      intro hmem
      rcases List.mem_map.mp hmem with ⟨kv2, hkv2, hfst⟩
      rcases List.mem_filter.mp hkv2 with ⟨hkv2m, hkv2e⟩
      have := nodup_keys_eq hnd hkv2m hkv hfst
      rw [this] at hkv2e
      exact hexp hkv2e
    simp [hb, List.elem_eq_mem, hmem]

/-- C8: when every shard's lock is healthy (and shard maps are key-unique,
as Rust's `HashMap` guarantees by construction), one sweep removes exactly
the entries whose expiry instant is strictly in the past at sweep time,
returns the total number of such entries across all shards, and never
removes an entry stored without a TTL. -/
theorem gc_removes_exactly_expired (t : MemTable) (now : Nat)
    (hlive : ∀ s ∈ t.partitions, s.poisoned = false)
    (hnd : ∀ s ∈ t.partitions, (s.map.map Prod.fst).Nodup) :
    (t.gc now).1 =
      ((t.partitions.map
        (fun s => (s.map.filter (fun kv => Entry.isExpired now kv.2)).length)).sum) ∧
    (t.gc now).2.partitions =
      t.partitions.map (fun s =>
        { s with map := s.map.filter (fun kv => !(Entry.isExpired now kv.2)) }) ∧
    (t.gc now).2.partition_count = t.partition_count ∧
    (∀ s ∈ t.partitions, ∀ kv ∈ s.map, kv.2.expires_at = Option.none →
       kv ∈ ((gcShard now s).2).map) := by
  have hmap : t.partitions.map (gcShard now) =
      t.partitions.map (fun s =>
        ((s.map.filter (fun kv => Entry.isExpired now kv.2)).length,
         { s with map := s.map.filter (fun kv => !(Entry.isExpired now kv.2)) })) := by
    refine List.map_congr_left ?_
    intro s hs
    exact gcShard_spec now s (hlive s hs) (hnd s hs)
  refine ⟨?_, ?_, ?_, ?_⟩
  · simp only [MemTable.gc, hmap, List.map_map]
    exact congrArg List.sum (List.map_congr_left fun s _ => rfl)
  · simp only [MemTable.gc, hmap, List.map_map]
    exact List.map_congr_left fun s _ => rfl
  · simp [MemTable.gc]
  · intro s hs kv hkv hnone
    rw [gcShard_spec now s (hlive s hs) (hnd s hs)]
    refine List.mem_filter.mpr ⟨hkv, ?_⟩
    simp [Entry.isExpired, hnone]

theorem gc_removes_exactly_expired_witness :
    ((⟨[⟨false, [([0], ⟨[1], some 3⟩), ([1], ⟨[2], none⟩)]⟩,
        ⟨false, [([2], ⟨[3], some 100⟩)]⟩], 2⟩ : MemTable).gc 10).1 = 1 ∧
    ((⟨[⟨false, [([0], ⟨[1], some 3⟩), ([1], ⟨[2], none⟩)]⟩,
        ⟨false, [([2], ⟨[3], some 100⟩)]⟩], 2⟩ : MemTable).gc 10).2.partitions =
      [⟨false, [([1], ⟨[2], none⟩)]⟩, ⟨false, [([2], ⟨[3], some 100⟩)]⟩] := by
  have h := gc_removes_exactly_expired
    ⟨[⟨false, [([0], ⟨[1], some 3⟩), ([1], ⟨[2], none⟩)]⟩,
      ⟨false, [([2], ⟨[3], some 100⟩)]⟩], 2⟩ 10 (by decide) (by decide)
  exact ⟨h.1.trans (by decide), h.2.1.trans (by decide)⟩

/-! ### Replay machinery for parsing encoded records -/

theorem mkHeader_length (a b c d e f g : Nat) :
    (mkHeader a b c d e f g).length = 35 := by
  simp [mkHeader]

theorem recordSize_eq (c : LogCmd) :
    recordSize c = 35 + (cmdKey c).length + (cmdValue c).length := by
  cases c <;> simp [recordSize, cmdKey, cmdValue]

theorem recordBody_eq (c : LogCmd) :
    recordBody c =
      leBytes (recordSize c) 4 ++ leBytes (cmdTag c) 1 ++ leBytes (cmdTs c) 8 ++
        leBytes (cmdKey c).length 2 ++ leBytes (cmdValue c).length 4 ++
        leBytes (cmdTtl c) 8 ++ (cmdKey c ++ cmdValue c) := by
  cases c <;>
    simp [recordBody, recordSize, cmdTag, cmdTs, cmdKey, cmdValue, cmdTtl,
      List.append_assoc]

theorem encodeRecord_eq (c : LogCmd) :
    encodeRecord c =
      mkHeader (calculate_crc (recordBody c)) (recordSize c) (cmdTag c) (cmdTs c)
        (cmdKey c).length (cmdValue c).length (cmdTtl c) ++
        (cmdKey c ++ cmdValue c) := by
  rw [encodeRecord, recordBody_eq, mkHeader]
  simp [List.append_assoc]

theorem ValidCmd.keyLen {c : LogCmd} (h : ValidCmd c) :
    (cmdKey c).length ≤ 65535 := by
  cases c with
  | set ts key value ttl => exact h.1
  | del ts key => exact h.1

theorem ValidCmd.valueLen {c : LogCmd} (h : ValidCmd c) :
    (cmdValue c).length ≤ 4294967295 := by
  cases c with
  | set ts key value ttl => exact h.2.1
  | del ts key => simp [cmdValue]

theorem ValidCmd.sizeBound {c : LogCmd} (h : ValidCmd c) :
    recordSize c < 4294967296 := by
  rw [recordSize_eq]
  cases c with
  | set ts key value ttl => exact h.2.2.1
  | del ts key =>
    have := h.1
    simp only [cmdKey, cmdValue, List.length_nil]
    omega

theorem ValidCmd.bodyBytes {c : LogCmd} (h : ValidCmd c) :
    ∀ b ∈ recordBody c, b < 256 := by
  cases c with
  | set ts key value ttl =>
    obtain ⟨h1, h2, h3, h4, h5⟩ := h
    intro b hb
    simp only [recordBody, List.append_assoc, List.mem_append] at hb
    rcases hb with hb | hb | hb | hb | hb | hb | hb | hb
    · exact leBytes_lt _ _ b hb
    · exact leBytes_lt _ _ b hb
    · exact leBytes_lt _ _ b hb
    · exact leBytes_lt _ _ b hb
    · exact leBytes_lt _ _ b hb
    · exact leBytes_lt _ _ b hb
    · exact h4 b hb
    · exact h5 b hb
  | del ts key =>
    obtain ⟨h1, h2⟩ := h
    intro b hb
    simp only [recordBody, List.append_assoc, List.mem_append] at hb
    rcases hb with hb | hb | hb | hb | hb | hb | hb
    · exact leBytes_lt _ _ b hb
    · exact leBytes_lt _ _ b hb
    · exact leBytes_lt _ _ b hb
    · exact leBytes_lt _ _ b hb
    · exact leBytes_lt _ _ b hb
    · exact leBytes_lt _ _ b hb
    · exact h2 b hb

theorem ValidCmd.tagCases (c : LogCmd) : cmdTag c = 1 ∨ cmdTag c = 2 := by
  cases c with
  | set ts key value ttl => exact Or.inl rfl
  | del ts key => exact Or.inr rfl

theorem mkHeader_assoc (a b c d e f g : Nat) :
    mkHeader a b c d e f g =
      leBytes a 8 ++ (leBytes b 4 ++ (leBytes c 1 ++ (leBytes d 8 ++
        (leBytes e 2 ++ (leBytes f 4 ++ leBytes g 8))))) := by
  simp [mkHeader, List.append_assoc]

theorem mkHeader_drop8 (a b c d e f g : Nat) :
    (mkHeader a b c d e f g).drop 8 =
      leBytes b 4 ++ (leBytes c 1 ++ (leBytes d 8 ++
        (leBytes e 2 ++ (leBytes f 4 ++ leBytes g 8)))) := by
  rw [mkHeader_assoc]
  exact List.drop_left' (leBytes_length a 8)

theorem mkHeader_drop12 (a b c d e f g : Nat) :
    (mkHeader a b c d e f g).drop 12 =
      leBytes c 1 ++ (leBytes d 8 ++ (leBytes e 2 ++ (leBytes f 4 ++ leBytes g 8))) := by
  rw [show (12 : Nat) = 8 + 4 from rfl, ← List.drop_drop, mkHeader_drop8,
    List.drop_left' (leBytes_length b 4)]

theorem mkHeader_drop13 (a b c d e f g : Nat) :
    (mkHeader a b c d e f g).drop 13 =
      leBytes d 8 ++ (leBytes e 2 ++ (leBytes f 4 ++ leBytes g 8)) := by
  rw [show (13 : Nat) = 12 + 1 from rfl, ← List.drop_drop, mkHeader_drop12,
    List.drop_left' (leBytes_length c 1)]

theorem mkHeader_drop21 (a b c d e f g : Nat) :
    (mkHeader a b c d e f g).drop 21 =
      leBytes e 2 ++ (leBytes f 4 ++ leBytes g 8) := by
  rw [show (21 : Nat) = 13 + 8 from rfl, ← List.drop_drop, mkHeader_drop13,
    List.drop_left' (leBytes_length d 8)]

theorem mkHeader_drop23 (a b c d e f g : Nat) :
    (mkHeader a b c d e f g).drop 23 = leBytes f 4 ++ leBytes g 8 := by
  rw [show (23 : Nat) = 21 + 2 from rfl, ← List.drop_drop, mkHeader_drop21,
    List.drop_left' (leBytes_length e 2)]

theorem hdrCrc_mkHeader (a b c d e f g : Nat) :
    hdrCrc (mkHeader a b c d e f g) = a % 256 ^ 8 := by
  rw [hdrCrc, mkHeader_assoc, List.take_left' (leBytes_length a 8), leDecode_leBytes]

theorem hdrSize_mkHeader (a b c d e f g : Nat) :
    hdrSize (mkHeader a b c d e f g) = b % 256 ^ 4 := by
  rw [hdrSize, mkHeader_drop8, List.take_left' (leBytes_length b 4), leDecode_leBytes]

theorem hdrCmd_mkHeader (a b c d e f g : Nat) :
    hdrCmd (mkHeader a b c d e f g) = c % 256 := by
  rw [hdrCmd, mkHeader_drop12, List.take_left' (leBytes_length c 1), leDecode_leBytes,
    pow_one]

theorem hdrKeySize_mkHeader (a b c d e f g : Nat) :
    hdrKeySize (mkHeader a b c d e f g) = e % 256 ^ 2 := by
  rw [hdrKeySize, mkHeader_drop21, List.take_left' (leBytes_length e 2),
    leDecode_leBytes]

theorem hdrValueSize_mkHeader (a b c d e f g : Nat) :
    hdrValueSize (mkHeader a b c d e f g) = f % 256 ^ 4 := by
  rw [hdrValueSize, mkHeader_drop23, List.take_left' (leBytes_length f 4),
    leDecode_leBytes]

theorem replayLoop_good_record (fuel : Nat) (c : LogCmd) (hc : ValidCmd c)
    (tail : List Nat) (pos fileLen count : Nat)
    (hfl : fileLen = pos + (encodeRecord c ++ tail).length)
    (ht : 0 < tail.length) :
    replayLoop (fuel + 1) (encodeRecord c ++ tail) pos fileLen count
      = replayLoop fuel tail (pos + recordSize c) fileLen (count + 1) := by
  have hrem : encodeRecord c ++ tail =
      mkHeader (calculate_crc (recordBody c)) (recordSize c) (cmdTag c) (cmdTs c)
        (cmdKey c).length (cmdValue c).length (cmdTtl c) ++
        (cmdKey c ++ (cmdValue c ++ tail)) := by
    rw [encodeRecord_eq]
    simp [List.append_assoc]
  have hrsize : 35 ≤ recordSize c := by rw [recordSize_eq]; omega
  have hlen : (encodeRecord c ++ tail).length = recordSize c + tail.length := by
    rw [List.length_append, encodeRecord_length]
  have h1 : pos < fileLen := by rw [hfl, hlen]; omega
  have hHlen : (mkHeader (calculate_crc (recordBody c)) (recordSize c) (cmdTag c)
      (cmdTs c) (cmdKey c).length (cmdValue c).length (cmdTtl c)).length = 35 :=
    mkHeader_length _ _ _ _ _ _ _
  have hsize : recordSize c % 256 ^ 4 = recordSize c :=
    Nat.mod_eq_of_lt (by have := hc.sizeBound; norm_num; omega)
  have hkl : (cmdKey c).length % 256 ^ 2 = (cmdKey c).length :=
    Nat.mod_eq_of_lt (by have := hc.keyLen; norm_num; omega)
  have hvl : (cmdValue c).length % 256 ^ 4 = (cmdValue c).length :=
    Nat.mod_eq_of_lt (by have := hc.valueLen; norm_num; omega)
  have hcrcmod : calculate_crc (recordBody c) % 256 ^ 8 = calculate_crc (recordBody c) :=
    Nat.mod_eq_of_lt (by
      have := calculate_crc_lt (recordBody c) hc.bodyBytes
      norm_num
      omega)
  have htag : cmdTag c % 256 = cmdTag c := by
    rcases ValidCmd.tagCases c with h | h <;> rw [h]
  have hcrceq : calculate_crc
      ((mkHeader (calculate_crc (recordBody c)) (recordSize c) (cmdTag c) (cmdTs c)
        (cmdKey c).length (cmdValue c).length (cmdTtl c)).drop 8 ++ cmdKey c ++
        cmdValue c) = calculate_crc (recordBody c) := by
    refine congrArg calculate_crc ?_
    rw [mkHeader_drop8, recordBody_eq]
    simp [List.append_assoc]
  rw [hrem, replayLoop]
  rw [if_pos h1]
  rw [if_pos (by rw [List.length_append, hHlen]; omega :
    35 ≤ (mkHeader (calculate_crc (recordBody c)) (recordSize c) (cmdTag c) (cmdTs c)
      (cmdKey c).length (cmdValue c).length (cmdTtl c) ++
      (cmdKey c ++ (cmdValue c ++ tail))).length)]
  simp only [List.take_left' hHlen, List.drop_left' hHlen, hdrSize_mkHeader,
    hdrKeySize_mkHeader, hdrValueSize_mkHeader, hdrCmd_mkHeader, hdrCrc_mkHeader,
    hsize, hkl, hvl, hcrcmod, htag]
  rw [if_neg (by omega : ¬ recordSize c < 35)]
  rw [if_pos (by rw [List.length_append]; omega :
    (cmdKey c).length ≤ (cmdKey c ++ (cmdValue c ++ tail)).length)]
  simp only [List.take_left, List.drop_left]
  rw [if_pos (by rw [List.length_append]; omega :
    (cmdValue c).length ≤ (cmdValue c ++ tail).length)]
  simp only [List.take_left, List.drop_left, hcrceq]
  rw [if_neg (not_not_intro rfl)]
  rw [if_pos (ValidCmd.tagCases c)]

theorem replayLoop_breaks (fuel : Nat) (bytes : List Nat) (pos fileLen count : Nat)
    (hb : BreaksAtHead bytes) (hfuel : bytes.length ≤ fuel) (hpos : pos < fileLen) :
    replayLoop fuel bytes pos fileLen count = .ok count := by
  obtain ⟨h35, hsz, hks, hkvs, hcrc⟩ := hb
  cases fuel with
  | zero => omega
  | succ fuel =>
    rw [replayLoop, if_pos hpos, if_pos h35]
    rw [if_neg (by omega : ¬ hdrSize (bytes.take 35) < 35)]
    rw [if_pos (by rw [List.length_drop]; omega :
      hdrKeySize (bytes.take 35) ≤ (bytes.drop 35).length)]
    rw [if_pos (by rw [List.length_drop, List.length_drop]; omega :
      hdrValueSize (bytes.take 35) ≤
        ((bytes.drop 35).drop (hdrKeySize (bytes.take 35))).length)]
    rw [if_pos hcrc]

theorem encodeAll_nil : encodeAll [] = [] := rfl

theorem encodeAll_cons (c : LogCmd) (cs : List LogCmd) :
    encodeAll (c :: cs) = encodeRecord c ++ encodeAll cs := by
  simp [encodeAll]

theorem replayLoop_replays_valid_records (cmds : List LogCmd) :
    ∀ (fuel pos count : Nat) (tail : List Nat),
      (∀ c ∈ cmds, ValidCmd c) → BreaksAtHead tail →
      (encodeAll cmds ++ tail).length ≤ fuel →
      replayLoop fuel (encodeAll cmds ++ tail) pos
          (pos + (encodeAll cmds ++ tail).length) count
        = .ok (count + cmds.length) := by
  induction cmds with
  | nil =>
    intro fuel pos count tail hval hb hfuel
    rw [encodeAll_nil, List.nil_append] at hfuel ⊢
    have h35 := hb.1
    rw [replayLoop_breaks fuel tail pos _ count hb hfuel (by omega)]
    simp
  | cons c cs ih =>
    intro fuel pos count tail hval hb hfuel
    have hc : ValidCmd c := hval c (List.mem_cons_self c cs)
    have h35tail := hb.1
    have hrsize : 35 ≤ recordSize c := by rw [recordSize_eq]; omega
    rw [encodeAll_cons, List.append_assoc] at hfuel ⊢
    have hlen : (encodeRecord c ++ (encodeAll cs ++ tail)).length =
        recordSize c + (encodeAll cs ++ tail).length := by
      rw [List.length_append, encodeRecord_length]
    have htail2 : tail.length ≤ (encodeAll cs ++ tail).length := by
      rw [List.length_append]; omega
    cases fuel with
    | zero => omega
    | succ fuel =>
      rw [replayLoop_good_record fuel c hc (encodeAll cs ++ tail) pos _ count rfl
        (by omega)]
      have hflen : pos + (encodeRecord c ++ (encodeAll cs ++ tail)).length =
          (pos + recordSize c) + (encodeAll cs ++ tail).length := by
        rw [hlen]; omega
      rw [hflen]
      rw [ih fuel (pos + recordSize c) (count + 1) tail
        (fun x hx => hval x (List.mem_cons_of_mem c hx)) hb (by omega)]
      exact congrArg Except.ok (by simp [List.length_cons]; omega)

/-- C3: a log file consisting of well-formed records followed by a record
whose stored integrity code does not match the code recomputed over
(header bytes minus the code field) + key + value — followed by anything
at all — opens successfully: replay stops at the corrupt record without
raising an error, every record strictly before it is processed (counted),
none at or after it is, and the replayed-record count equals the number
of valid records strictly before the corruption point. -/
theorem replay_stops_at_corruption (cmds : List LogCmd) (tail : List Nat)
    (hval : ∀ c ∈ cmds, ValidCmd c) (hb : BreaksAtHead tail) :
    AppendOnlyFile.new (encodeAll cmds ++ tail) =
      .ok { data := encodeAll cmds ++ tail,
            position := (encodeAll cmds ++ tail).length,
            replay_count := cmds.length } := by
  have h35 := hb.1
  have hne : ¬ (encodeAll cmds ++ tail).length = 0 := by
    rw [List.length_append]; omega
  rw [AppendOnlyFile.new, replay_existing_entries, if_neg hne]
  have h := replayLoop_replays_valid_records cmds (encodeAll cmds ++ tail).length 0 0 tail
    hval hb (le_refl _)
  rw [Nat.zero_add] at h
  rw [h, Nat.zero_add]
  rfl

theorem replay_stops_at_corruption_witness :
    AppendOnlyFile.new
        (encodeAll [LogCmd.set 0 [107] [118] 0] ++
          (encodeRecord (.del 3 [97])).set 0 99) =
      .ok { data := encodeAll [LogCmd.set 0 [107] [118] 0] ++
              (encodeRecord (.del 3 [97])).set 0 99,
            position := (encodeAll [LogCmd.set 0 [107] [118] 0] ++
              (encodeRecord (.del 3 [97])).set 0 99).length,
            replay_count := 1 } :=
  replay_stops_at_corruption [LogCmd.set 0 [107] [118] 0]
    ((encodeRecord (.del 3 [97])).set 0 99) (by decide) (by decide)

/-- C1: replaying a log that holds one valid Set record succeeds and
counts one replayed record, but — exactly as the source's replay loop,
which takes no table at all and whose comments read "For now, just count
it" — applies nothing to any table: the fresh table built alongside the
log at startup still reports the key absent after open, where the claim
requires `get` to return the recorded value. -/
theorem replay_counts_but_does_not_apply :
    AppendOnlyFile.new (encodeRecord (.set 0 [107] [118] 0)) =
      .ok { data := encodeRecord (.set 0 [107] [118] 0), position := 37,
            replay_count := 1 } ∧
    (MemTable.with_partitions 4).get 0 [107] = some none := by
  exact ⟨by decide, by decide⟩
